import Mathlib

/-
Formal model of the robot-arm-ui repository's numeric core, translated from
the TypeScript sources:
  - src/lib/motorUtils.ts        : pulse/degree conversion for the servo bus
  - src/app/api/ik route         : payload construction with waypoint fractions
  - src/lib/motorControl.ts      : the ring-constrained FABRIK solver
  - src/lib/ikts.ts              : angle extraction from a solved chain
JavaScript numbers are modelled by exact rationals where the code only uses
field operations and rounding, and by real numbers where the code uses
square roots and trigonometric functions.  The `x || 1` idiom on a
nonnegative length is modelled by `safeLen`, which maps 0 to 1.
-/

/-! ## motorUtils.ts -/

/-- `PULSES_PER_DEGREE = (2 * 30000) / 180` from motorUtils.ts. -/
def PULSES_PER_DEGREE : ℚ := (2 * 30000) / 180

/-- JavaScript `Math.round`: round half toward positive infinity. -/
def jsRound (x : ℚ) : ℤ := ⌊x + 1/2⌋

/-- `angleToPulses` from motorUtils.ts: clamp the angle to [-180, 180],
scale by `PULSES_PER_DEGREE` and round. -/
def angleToPulses (angle : ℚ) : ℤ :=
  jsRound (max (-180) (min 180 angle) * PULSES_PER_DEGREE)

/-- `pulsesToAngle` from motorUtils.ts. -/
def pulsesToAngle (pulses : ℚ) : ℚ := pulses / PULSES_PER_DEGREE

/-! ## The IK API route (app/api/ik/route.ts) -/

/-- The constant chain-geometry block the route places in every payload. -/
structure IkRouteConfig where
  baseLength : ℚ
  shoulderLength : ℚ
  ankleLength : ℚ
  ankle2Length : ℚ
  forearmLength : ℚ
deriving DecidableEq

/-- The JSON payload the route writes to the Python solver's stdin. -/
structure IkPayload where
  target : List ℚ
  origin : Option (List ℚ)
  config : IkRouteConfig
  fractions : List ℚ
  useCtraj : Bool
  ctrajSteps : ℕ
deriving DecidableEq

/-- The config literal from the route source. -/
def ikRouteConfig : IkRouteConfig := ⟨3, 4, 10, 4, 10⟩

/-- The payload object constructed by the route for a validated target. -/
def buildIkPayload (target : List ℚ) (origin : Option (List ℚ)) : IkPayload :=
  ⟨target, origin, ikRouteConfig, [1/4, 1/2, 3/4], true, 6⟩

/-- The POST handler's validation and payload construction: a missing target
or a target whose length is not 3 is rejected with a 400 response (`none`);
otherwise the payload is built and sent. -/
def ikRoutePost (targetBody : Option (List ℚ)) (originBody : Option (List ℚ)) :
    Option IkPayload :=
  match targetBody with
  | none => none
  | some t => if t.length = 3 then some (buildIkPayload t originBody) else none

/-! ## Shared 3D primitives (real-number model of JS doubles) -/

noncomputable section

open Real

/-- A 3D point or vector, the `Vec3 = [number, number, number]` of the code. -/
@[ext]
structure V3 where
  x : ℝ
  y : ℝ
  z : ℝ

/-- `Math.hypot` on two arguments. -/
def hypot2 (a b : ℝ) : ℝ := Real.sqrt (a ^ 2 + b ^ 2)

/-- `Math.hypot` on three arguments. -/
def hypot3 (a b c : ℝ) : ℝ := Real.sqrt (a ^ 2 + b ^ 2 + c ^ 2)

/-- The `len || 1` guard applied to a nonnegative length: 0 becomes 1. -/
def safeLen (l : ℝ) : ℝ := if l = 0 then 1 else l

/-- Distance between two points, `Math.hypot` of the componentwise difference. -/
def dist3 (p q : V3) : ℝ := hypot3 (p.x - q.x) (p.y - q.y) (p.z - q.z)

/-- Componentwise difference of two vectors. -/
def vsub (a b : V3) : V3 := ⟨a.x - b.x, a.y - b.y, a.z - b.z⟩

/-- Dot product. -/
def vdot (a b : V3) : ℝ := a.x * b.x + a.y * b.y + a.z * b.z

/-- Scalar multiple. -/
def vscale (k : ℝ) (a : V3) : V3 := ⟨k * a.x, k * a.y, k * a.z⟩

/-- JavaScript `Math.atan2` (ignoring signed zero): the angle of the point
`(x, y)` in `(-pi, pi]`, with `atan2 0 0 = 0`. -/
def atan2 (y x : ℝ) : ℝ :=
  if 0 < x then Real.arctan (y / x)
  else if x < 0 then
    (if 0 ≤ y then Real.arctan (y / x) + π else Real.arctan (y / x) - π)
  else
    (if 0 < y then π / 2 else if y < 0 then -(π / 2) else 0)

/-- JavaScript `Math.sign`. -/
def jsSign (v : ℝ) : ℝ := if 0 < v then 1 else if v < 0 then -1 else 0

/-! ## motorControl.ts : the ring-constrained FABRIK solver -/

/-- `IkConfig` from motorControl.ts. -/
structure IkConfig where
  basePosition : V3
  elbowOffsetFromBaseLocal : V3
  endEffectorLength : ℝ
  pitchMinDeg : ℝ
  pitchMaxDeg : ℝ

/-- The warm-start angles argument `currentAnglesDeg`. -/
structure CurrentAngles where
  yawDeg : ℝ
  pitchDeg : ℝ

/-- The result record `{ yawDeg, pitchDeg }`. -/
structure IkAngles where
  yawDeg : ℝ
  pitchDeg : ℝ

/-- `ringY = base[1] + elbowOffsetFromBaseLocal[1]`. -/
def ringY (cfg : IkConfig) : ℝ :=
  cfg.basePosition.y + cfg.elbowOffsetFromBaseLocal.y

/-- `ringR = hypot(elbowOffsetFromBaseLocal[0], elbowOffsetFromBaseLocal[2])`. -/
def ringR (cfg : IkConfig) : ℝ :=
  hypot2 cfg.elbowOffsetFromBaseLocal.x cfg.elbowOffsetFromBaseLocal.z

/-- The recurring pattern `p + (d / len) * L` with `d = q - p` and
`len = hypot(d) || 1`: the point at (signed) distance `L` from `p` in the
direction of `q`, with the degenerate direction collapsing to `p` itself
scaled by `L / 1`. -/
def stepToward (p q : V3) (len2 : ℝ) : V3 :=
  let dx := q.x - p.x
  let dy := q.y - p.y
  let dz := q.z - p.z
  let len := safeLen (hypot3 dx dy dz)
  ⟨p.x + dx / len * len2, p.y + dy / len * len2, p.z + dz / len * len2⟩

/-- `projectElbowToRing` from motorControl.ts. -/
def projectElbowToRing (cfg : IkConfig) (p : V3) : V3 :=
  let dx := p.x - cfg.basePosition.x
  let dz := p.z - cfg.basePosition.z
  let lenXZ := hypot2 dx dz
  if lenXZ = 0 then
    ⟨cfg.basePosition.x + ringR cfg, ringY cfg, cfg.basePosition.z⟩
  else
    ⟨cfg.basePosition.x + dx * (ringR cfg / lenXZ), ringY cfg,
     cfg.basePosition.z + dz * (ringR cfg / lenXZ)⟩

/-- The solver's mutable state: the elbow and end-effector points. -/
structure FabrikState where
  elbow : V3
  endP : V3

/-- One iteration of the solve loop: the backward pass (end to target, elbow
pulled to keep the link length, then projected to the ring) followed by the
forward pass (elbow projected again, end placed `link2` from the elbow toward
the target). -/
def fabrikStep (cfg : IkConfig) (target : V3) (s : FabrikState) : FabrikState :=
  let elbow1 := stepToward target s.elbow cfg.endEffectorLength
  let elbow2 := projectElbowToRing cfg elbow1
  let elbow3 := projectElbowToRing cfg elbow2
  ⟨elbow3, stepToward elbow3 target cfg.endEffectorLength⟩

/-- `tol = 1e-3`. -/
def fabrikTol : ℝ := 1 / 1000

/-- `maxIter = 20`. -/
def fabrikMaxIter : ℕ := 20

/-- The `for` loop of `computeIkAnglesFabrik` with its early `break` when the
error drops below `tol`. -/
def fabrikLoop (cfg : IkConfig) (target : V3) : ℕ → FabrikState → FabrikState
  | 0, s => s
  | n + 1, s =>
    if dist3 (fabrikStep cfg target s).endP target < fabrikTol then
      fabrikStep cfg target s
    else fabrikLoop cfg target n (fabrikStep cfg target s)

/-- The warm-start state: the elbow on the ring at the current yaw, the end
placed `link2` from the elbow toward the target. -/
def fabrikInit (cfg : IkConfig) (target : V3) (yawDeg : ℝ) : FabrikState :=
  let yaw0 := yawDeg * π / 180
  let elbow : V3 :=
    ⟨cfg.basePosition.x + ringR cfg * Real.cos yaw0, ringY cfg,
     cfg.basePosition.z - ringR cfg * Real.sin yaw0⟩
  ⟨elbow, stepToward elbow target cfg.endEffectorLength⟩

/-- The state when the loop of `computeIkAnglesFabrik` exits. -/
def fabrikFinal (target : V3) (cur : CurrentAngles) (cfg : IkConfig) :
    FabrikState :=
  fabrikLoop cfg target fabrikMaxIter (fabrikInit cfg target cur.yawDeg)

/-- `computeIkAnglesFabrik` from motorControl.ts: run the constrained FABRIK
loop, then extract yaw from base to elbow and pitch from elbow to end, clamping
pitch to the configured limits. -/
def computeIkAnglesFabrik (target : V3) (cur : CurrentAngles) (cfg : IkConfig) :
    IkAngles :=
  let s := fabrikFinal target cur cfg
  let vBE := vsub s.elbow cfg.basePosition
  let yaw := atan2 (-vBE.z) vBE.x
  let vEE := vsub s.endP s.elbow
  let ly := vEE.y
  let lz := -vEE.x * Real.sin yaw + vEE.z * Real.cos yaw
  let pitch0 := atan2 lz ly
  let pitchMin := cfg.pitchMinDeg * π / 180
  let pitchMax := cfg.pitchMaxDeg * π / 180
  let pitch1 := if pitch0 > pitchMax then pitchMax else pitch0
  let pitch2 := if pitch1 < pitchMin then pitchMin else pitch1
  ⟨yaw * 180 / π, pitch2 * 180 / π⟩

/-! ## ikts.ts : angle extraction (final version, 5-bone chain) -/

/-- A world-space bone pose: start and end points. -/
structure Bone3 where
  startP : V3
  endP : V3

/-- The record returned by `extractYawPitchDegrees`: yaw and pitch in degrees
plus the optional forearm angle. -/
structure ExtractResult where
  yawDeg : ℝ
  pitchDeg : ℝ
  forearmDeg : Option ℝ

/-- A three.js quaternion. -/
structure Quat where
  x : ℝ
  y : ℝ
  z : ℝ
  w : ℝ

/-- three.js `Quaternion.length`. -/
def quatLength (q : Quat) : ℝ :=
  Real.sqrt (q.x ^ 2 + q.y ^ 2 + q.z ^ 2 + q.w ^ 2)

/-- three.js `Quaternion.normalize`: a zero-length quaternion becomes the
identity. -/
def quatNormalize (q : Quat) : Quat :=
  if quatLength q = 0 then ⟨0, 0, 0, 1⟩
  else ⟨q.x / quatLength q, q.y / quatLength q, q.z / quatLength q,
        q.w / quatLength q⟩

/-- `Number.EPSILON`. -/
def jsEpsilon : ℝ := 1 / 2 ^ 52

/-- three.js `Quaternion.setFromUnitVectors`. -/
def setFromUnitVectors (vFrom vTo : V3) : Quat :=
  let r := vdot vFrom vTo + 1
  if r < jsEpsilon then
    (if |vFrom.x| > |vFrom.z| then quatNormalize ⟨-vFrom.y, vFrom.x, 0, 0⟩
     else quatNormalize ⟨0, -vFrom.z, vFrom.y, 0⟩)
  else
    quatNormalize
      ⟨vFrom.y * vTo.z - vFrom.z * vTo.y,
       vFrom.z * vTo.x - vFrom.x * vTo.z,
       vFrom.x * vTo.y - vFrom.y * vTo.x, r⟩

/-- three.js `Vector3.applyQuaternion`. -/
def applyQuaternion (v : V3) (q : Quat) : V3 :=
  let tx := 2 * (q.y * v.z - q.z * v.y)
  let ty := 2 * (q.z * v.x - q.x * v.z)
  let tz := 2 * (q.x * v.y - q.y * v.x)
  ⟨v.x + q.w * tx + q.y * tz - q.z * ty,
   v.y + q.w * ty + q.z * tx - q.x * tz,
   v.z + q.w * tz + q.x * ty - q.y * tx⟩

/-- three.js `Vector3.normalize`, which divides by `length() || 1`. -/
def tjNormalize (v : V3) : V3 :=
  let l := safeLen (hypot3 v.x v.y v.z)
  ⟨v.x / l, v.y / l, v.z / l⟩

/-- `angleBetween3D` from ikts.ts: unsigned angle from `atan2(|a x b|, a . b)`
signed by the reference axis. -/
def angleBetween3D (a b ref : V3) : ℝ :=
  let crossV : V3 :=
    ⟨a.y * b.z - a.z * b.y, a.z * b.x - a.x * b.z, a.x * b.y - a.y * b.x⟩
  let crossMag := Real.sqrt (crossV.x ^ 2 + crossV.y ^ 2 + crossV.z ^ 2)
  atan2 crossMag (vdot a b) * jsSign (vdot ref crossV)

/-- The clamp `Math.max(-90, Math.min(90, d))` applied to every reported
pitch/forearm angle. -/
def clamp90 (d : ℝ) : ℝ := max (-90) (min 90 d)

/-- A placeholder bone used as the (never read) default of `List.getD`. -/
def zeroBone : Bone3 := ⟨⟨0, 0, 0⟩, ⟨0, 0, 0⟩⟩

/-- `extractYawPitchDegrees` from ikts.ts (final five-bone version): fewer
than three bones short-circuits to zero angles; otherwise yaw comes from the
shoulder direction, pitch from the ankle direction around the shoulder axis,
and, when bones 3 and 4 exist, the forearm angle around the ankle2 axis. -/
def extractYawPitchDegrees (bones : List Bone3) : ExtractResult :=
  if bones.length < 3 then ⟨0, 0, none⟩
  else
    let shoulder := bones.getD 1 zeroBone
    let ankle := bones.getD 2 zeroBone
    let sd := vsub shoulder.endP shoulder.startP
    let sl := safeLen (hypot3 sd.x sd.y sd.z)
    let yawRad := angleBetween3D ⟨1, 0, 0⟩ sd ⟨0, 1, 0⟩
    let ad := vsub ankle.endP ankle.startP
    let al := safeLen (hypot3 ad.x ad.y ad.z)
    let aDir : V3 := ⟨ad.x / al, ad.y / al, ad.z / al⟩
    let shoulderAxis : V3 := ⟨sd.x / sl, sd.y / sl, sd.z / sl⟩
    let qShoulder := setFromUnitVectors ⟨1, 0, 0⟩ shoulderAxis
    let refWorld := tjNormalize (applyQuaternion ⟨0, 1, 0⟩ qShoulder)
    let refProj :=
      tjNormalize (vsub refWorld (vscale (vdot refWorld shoulderAxis) shoulderAxis))
    let ankleProj :=
      tjNormalize (vsub aDir (vscale (vdot aDir shoulderAxis) shoulderAxis))
    let pitchRad := angleBetween3D refProj ankleProj shoulderAxis
    let yawDeg := yawRad * 180 / π
    let pitchDeg := pitchRad * 180 / π
    match bones.get? 3, bones.get? 4 with
    | some ankle2, some forearm =>
      let fd := vsub forearm.endP forearm.startP
      let fl := safeLen (hypot3 fd.x fd.y fd.z)
      let fDir : V3 := ⟨fd.x / fl, fd.y / fl, fd.z / fl⟩
      let a2d := vsub ankle2.endP ankle2.startP
      let a2l := safeLen (hypot3 a2d.x a2d.y a2d.z)
      let a2Axis : V3 := ⟨a2d.x / a2l, a2d.y / a2l, a2d.z / a2l⟩
      let qA2 := setFromUnitVectors ⟨1, 0, 0⟩ a2Axis
      let refWorld2 := tjNormalize (applyQuaternion ⟨0, 1, 0⟩ qA2)
      let projRef2 :=
        tjNormalize (vsub refWorld2 (vscale (vdot refWorld2 a2Axis) a2Axis))
      let projFore2 :=
        tjNormalize (vsub fDir (vscale (vdot fDir a2Axis) a2Axis))
      let forearmRad := angleBetween3D projRef2 projFore2 a2Axis
      ⟨yawDeg, clamp90 pitchDeg, some (clamp90 (forearmRad * 180 / π))⟩
    | _, _ => ⟨yawDeg, clamp90 pitchDeg, none⟩

/-! ## Concrete instances used by individual claims -/

/-- A minimal ring configuration: base at the origin, ring of radius 1 at
height 0, end-effector length 1, pitch limits of plus and minus 90 degrees. -/
def cfgRing : IkConfig := ⟨⟨0, 0, 0⟩, ⟨1, 0, 0⟩, 1, -90, 90⟩

/-- A target lying exactly on the elbow ring of `cfgRing`. -/
def tgtOnRing : V3 := ⟨1, 0, 0⟩

/-- A target off the ring of `cfgRing`, along the positive x axis. -/
def tgtOffRing : V3 := ⟨3, 0, 0⟩

/-- The robot geometry documented in motorControl.ts: base `[0,-1,0]`, elbow
ring of radius 4 at height `base.y + 3`, end-effector length 10. -/
def cfgExample : IkConfig := ⟨⟨0, -1, 0⟩, ⟨4, 3, 0⟩, 10, -90, 90⟩

/-- The example target `(1, 3, -1)` from the spec's convergence property. -/
def tgtExample : V3 := ⟨1, 3, -1⟩

/-- The rest pose used as a warm start. -/
def curZero : CurrentAngles := ⟨0, 0⟩

/-- The ring configuration with a degenerate end-effector length of 0. -/
def cfgZeroLen : IkConfig := ⟨⟨0, 0, 0⟩, ⟨1, 0, 0⟩, 0, -90, 90⟩

/-- A target on the positive x axis outside the ring of `cfgZeroLen`. -/
def tgtTwo : V3 := ⟨2, 0, 0⟩

/-- A configuration whose pitch limits are inverted (min above max). -/
def cfgInverted : IkConfig := ⟨⟨0, 0, 0⟩, ⟨1, 0, 0⟩, 1, 90, -90⟩

end

open Real

/-! ## Theorems -/

/-- C8: pulse/degree conversion is the fixed linear scale and round-trips:
`pulsesToAngle p = p / PULSES_PER_DEGREE` for every pulse count, and for every
angle in [-180, 180] the round-trip error is at most half a pulse in degrees,
which is no more than 0.002 degrees. -/
theorem pulses_linear_scale_roundtrip :
    (∀ p : ℚ, pulsesToAngle p = p / PULSES_PER_DEGREE) ∧
    ((1 : ℚ) / 2 / PULSES_PER_DEGREE ≤ 2 / 1000) ∧
    ∀ a : ℚ, -180 ≤ a → a ≤ 180 →
      |pulsesToAngle ((angleToPulses a : ℤ) : ℚ) - a| ≤
        (1 : ℚ) / 2 / PULSES_PER_DEGREE := by
  refine ⟨fun p => rfl, by norm_num [PULSES_PER_DEGREE], ?_⟩
  intro a h1 h2
  have hclamp : max (-180) (min 180 a) = a := by
    rw [min_eq_right h2, max_eq_right h1]
  have hP : PULSES_PER_DEGREE = 1000 / 3 := by norm_num [PULSES_PER_DEGREE]
  set r : ℤ := angleToPulses a with hr
  have hrval : r = ⌊a * (1000 / 3) + 1 / 2⌋ := by
    rw [hr]; unfold angleToPulses jsRound; rw [hclamp, hP]
  have hub : (r : ℚ) ≤ a * (1000 / 3) + 1 / 2 := by
    rw [hrval]; exact Int.floor_le _
  have hlb : a * (1000 / 3) + 1 / 2 < (r : ℚ) + 1 := by
    rw [hrval]; exact Int.lt_floor_add_one _
  unfold pulsesToAngle
  rw [hP]
  have hdiv : (r : ℚ) / (1000 / 3) = (r : ℚ) * 3 / 1000 := by ring
  rw [hdiv, abs_le]
  constructor <;> linarith

/-- Witness for C8 at the concrete angle 90 degrees. -/
theorem pulses_linear_scale_roundtrip_witness :
    (-180 : ℚ) ≤ 90 ∧ (90 : ℚ) ≤ 180 ∧
      |pulsesToAngle ((angleToPulses 90 : ℤ) : ℚ) - 90| ≤
        (1 : ℚ) / 2 / PULSES_PER_DEGREE :=
  ⟨by norm_num, by norm_num,
    pulses_linear_scale_roundtrip.2.2 90 (by norm_num) (by norm_num)⟩

/-- C9: `angleToPulses` is total and bounded: its absolute value never exceeds
60000, and inputs past the clamp range map to the same pulses as the range
endpoints. -/
theorem angleToPulses_total_bounded :
    ∀ a : ℚ, |(angleToPulses a : ℤ)| ≤ 60000 ∧
      (a ≤ -180 → angleToPulses a = angleToPulses (-180)) ∧
      (180 ≤ a → angleToPulses a = angleToPulses 180) := by
  intro a
  have hP : PULSES_PER_DEGREE = 1000 / 3 := by norm_num [PULSES_PER_DEGREE]
  refine ⟨?_, ?_, ?_⟩
  · set c : ℚ := max (-180) (min 180 a) with hc
    have hc1 : -180 ≤ c := le_max_left _ _
    have hc2 : c ≤ 180 := max_le (by norm_num) (min_le_left _ _)
    have hx1 : -60000 ≤ c * PULSES_PER_DEGREE := by rw [hP]; linarith
    have hx2 : c * PULSES_PER_DEGREE ≤ 60000 := by rw [hP]; linarith
    have hval : angleToPulses a = ⌊c * PULSES_PER_DEGREE + 1 / 2⌋ := rfl
    rw [hval, abs_le]
    constructor
    · rw [Int.le_floor]; push_cast; linarith
    · have h := Int.floor_le (c * PULSES_PER_DEGREE + 1 / 2)
      have : ((⌊c * PULSES_PER_DEGREE + 1 / 2⌋ : ℤ) : ℚ) < ((60001 : ℤ) : ℚ) := by
        push_cast; linarith
      have h2 : (⌊c * PULSES_PER_DEGREE + 1 / 2⌋ : ℤ) < 60001 := by
        exact_mod_cast this
      omega
  · intro h
    unfold angleToPulses
    have : min 180 a = a := min_eq_right (by linarith)
    rw [this, max_eq_left (by linarith)]
    norm_num
  · intro h
    unfold angleToPulses
    have : min 180 a = (180 : ℚ) := min_eq_left h
    rw [this, max_eq_right (by norm_num : (-180 : ℚ) ≤ 180)]
    norm_num

/-- Witness for C9 at the out-of-range angle -200 degrees. -/
theorem angleToPulses_total_bounded_witness :
    |(angleToPulses (-200) : ℤ)| ≤ 60000 ∧
      angleToPulses (-200) = angleToPulses (-180) :=
  ⟨(angleToPulses_total_bounded (-200)).1,
    (angleToPulses_total_bounded (-200)).2.1 (by norm_num)⟩

/-- C7: for every well-formed request (a 3-element target) the IK route builds
and sends a payload whose `fractions` field is exactly `[0.25, 0.5, 0.75]`,
which does not contain the origin fraction 0, and whose `target` field is the
request target itself. -/
theorem ikRoute_default_fractions :
    ∀ (t : List ℚ) (o : Option (List ℚ)), t.length = 3 →
      ikRoutePost (some t) o = some (buildIkPayload t o) ∧
      (buildIkPayload t o).fractions = [1/4, 1/2, 3/4] ∧
      (0 : ℚ) ∉ (buildIkPayload t o).fractions ∧
      (buildIkPayload t o).target = t := by
  intro t o h
  refine ⟨by simp [ikRoutePost, h], rfl, ?_, rfl⟩
  simp [buildIkPayload]
  norm_num

/-- Witness for C7 at the concrete target `[1, 3, -1]`. -/
theorem ikRoute_default_fractions_witness :
    ikRoutePost (some [1, 3, -1]) none = some (buildIkPayload [1, 3, -1] none) ∧
    (buildIkPayload [1, 3, -1] none).fractions = [1/4, 1/2, 3/4] ∧
    (0 : ℚ) ∉ (buildIkPayload [1, 3, -1] none).fractions ∧
    (buildIkPayload [1, 3, -1] none).target = [1, 3, -1] :=
  ikRoute_default_fractions [1, 3, -1] none rfl

/-! ## Helper lemmas about the primitives -/

theorem hypot3_nonneg (a b c : ℝ) : 0 ≤ hypot3 a b c := Real.sqrt_nonneg _

theorem hypot2_nonneg (a b : ℝ) : 0 ≤ hypot2 a b := Real.sqrt_nonneg _

theorem hypot3_eq_zero_iff (a b c : ℝ) :
    hypot3 a b c = 0 ↔ a = 0 ∧ b = 0 ∧ c = 0 := by
  unfold hypot3
  rw [Real.sqrt_eq_zero']
  constructor
  · intro h
    refine ⟨?_, ?_, ?_⟩ <;> nlinarith [sq_nonneg a, sq_nonneg b, sq_nonneg c]
  · rintro ⟨ha, hb, hc⟩
    simp [ha, hb, hc]

theorem hypot2_eq_zero_iff (a b : ℝ) : hypot2 a b = 0 ↔ a = 0 ∧ b = 0 := by
  unfold hypot2
  rw [Real.sqrt_eq_zero']
  constructor
  · intro h
    constructor <;> nlinarith [sq_nonneg a, sq_nonneg b]
  · rintro ⟨ha, hb⟩
    simp [ha, hb]

theorem safeLen_pos (l : ℝ) (h : 0 ≤ l) : 0 < safeLen l := by
  unfold safeLen
  split
  · norm_num
  · rename_i hne
    exact lt_of_le_of_ne h (Ne.symm hne)

theorem safeLen_hypot3_pos (a b c : ℝ) : 0 < safeLen (hypot3 a b c) :=
  safeLen_pos _ (hypot3_nonneg a b c)

theorem safeLen_of_ne (l : ℝ) (h : l ≠ 0) : safeLen l = l := if_neg h

theorem arctan_nonneg_of (t : ℝ) (h : 0 ≤ t) : 0 ≤ Real.arctan t := by
  have := Real.arctan_strictMono.monotone h
  rwa [Real.arctan_zero] at this

theorem arctan_nonpos_of (t : ℝ) (h : t ≤ 0) : Real.arctan t ≤ 0 := by
  have := Real.arctan_strictMono.monotone h
  rwa [Real.arctan_zero] at this

theorem abs_atan2_le_pi (y x : ℝ) : |atan2 y x| ≤ π := by
  have hpi : (0 : ℝ) < π := Real.pi_pos
  unfold atan2
  split
  · have h1 := Real.arctan_lt_pi_div_two (y / x)
    have h2 := Real.neg_pi_div_two_lt_arctan (y / x)
    rw [abs_le]; constructor <;> linarith
  · rename_i hx0
    split
    · rename_i hx
      split
      · rename_i hy
        have h1 : Real.arctan (y / x) ≤ 0 :=
          arctan_nonpos_of _ (div_nonpos_iff.2 (Or.inl ⟨hy, hx.le⟩))
        have h2 := Real.neg_pi_div_two_lt_arctan (y / x)
        rw [abs_le]; constructor <;> linarith
      · rename_i hy
        push_neg at hy
        have h1 : 0 ≤ Real.arctan (y / x) :=
          arctan_nonneg_of _ (div_nonneg_iff.2 (Or.inr ⟨hy.le, hx.le⟩))
        have h2 := Real.arctan_lt_pi_div_two (y / x)
        rw [abs_le]; constructor <;> linarith
    · split
      · rw [abs_le]; constructor <;> linarith
      · split
        · rw [abs_le]; constructor <;> linarith
        · rw [abs_le]; constructor <;> linarith

theorem abs_jsSign_le_one (v : ℝ) : |jsSign v| ≤ 1 := by
  unfold jsSign
  split
  · norm_num
  · split <;> norm_num

theorem abs_angleBetween3D_le_pi (a b ref : V3) :
    |angleBetween3D a b ref| ≤ π := by
  unfold angleBetween3D
  rw [abs_mul]
  calc |atan2 _ _| * |jsSign _| ≤ π * 1 :=
        mul_le_mul (abs_atan2_le_pi _ _) (abs_jsSign_le_one _) (abs_nonneg _)
          Real.pi_pos.le
    _ = π := mul_one π

theorem abs_toDeg_le (r : ℝ) (h : |r| ≤ π) : |r * 180 / π| ≤ 180 := by
  have hpi : (0 : ℝ) < π := Real.pi_pos
  rw [abs_div, abs_mul, abs_of_pos hpi, show |(180 : ℝ)| = 180 by norm_num,
    div_le_iff hpi]
  nlinarith

theorem clamp90_lb (d : ℝ) : -90 ≤ clamp90 d := le_max_left _ _

theorem clamp90_ub (d : ℝ) : clamp90 d ≤ 90 :=
  max_le (by norm_num) (min_le_left _ _)

theorem abs_clamp90_le (d : ℝ) : |clamp90 d| ≤ 90 :=
  abs_le.2 ⟨clamp90_lb d, clamp90_ub d⟩

theorem ringR_nonneg (cfg : IkConfig) : 0 ≤ ringR cfg := hypot2_nonneg _ _

theorem hypot2_mul_right (a b k : ℝ) :
    hypot2 (a * k) (b * k) = hypot2 a b * |k| := by
  unfold hypot2
  rw [show (a * k) ^ 2 + (b * k) ^ 2 = (a ^ 2 + b ^ 2) * k ^ 2 by ring,
    Real.sqrt_mul (by positivity), Real.sqrt_sq_eq_abs]

theorem projectElbowToRing_y (cfg : IkConfig) (p : V3) :
    (projectElbowToRing cfg p).y = ringY cfg := by
  unfold projectElbowToRing
  dsimp only
  split <;> rfl

theorem projectElbowToRing_radius (cfg : IkConfig) (p : V3) :
    hypot2 ((projectElbowToRing cfg p).x - cfg.basePosition.x)
      ((projectElbowToRing cfg p).z - cfg.basePosition.z) = ringR cfg := by
  unfold projectElbowToRing
  dsimp only
  split
  · simp only [add_sub_cancel_left, sub_self]
    unfold hypot2
    rw [show ringR cfg ^ 2 + (0 : ℝ) ^ 2 = ringR cfg ^ 2 by ring,
      Real.sqrt_sq (ringR_nonneg cfg)]
  · rename_i h
    simp only [add_sub_cancel_left]
    rw [hypot2_mul_right,
      abs_of_nonneg (div_nonneg (ringR_nonneg cfg) (hypot2_nonneg _ _))]
    field_simp

theorem sqrt_four : Real.sqrt 4 = 2 := by
  rw [show (4 : ℝ) = 2 ^ 2 by norm_num, Real.sqrt_sq (by norm_num : (0:ℝ) ≤ 2)]

theorem hypot3_mul_right (a b c k : ℝ) :
    hypot3 (a * k) (b * k) (c * k) = hypot3 a b c * |k| := by
  unfold hypot3
  rw [show (a * k) ^ 2 + (b * k) ^ 2 + (c * k) ^ 2 =
        (a ^ 2 + b ^ 2 + c ^ 2) * k ^ 2 by ring,
    Real.sqrt_mul (by positivity), Real.sqrt_sq_eq_abs]

theorem hypot3_pos_of_ne (a b c : ℝ) (h : ¬(a = 0 ∧ b = 0 ∧ c = 0)) :
    0 < hypot3 a b c :=
  lt_of_le_of_ne (hypot3_nonneg a b c)
    (fun h0 => h ((hypot3_eq_zero_iff a b c).mp h0.symm))

theorem stepToward_dist_self (p q : V3) (L : ℝ)
    (h : hypot3 (q.x - p.x) (q.y - p.y) (q.z - p.z) ≠ 0) :
    dist3 (stepToward p q L) p = |L| := by
  have hlen : 0 < hypot3 (q.x - p.x) (q.y - p.y) (q.z - p.z) :=
    lt_of_le_of_ne (hypot3_nonneg _ _ _) (Ne.symm h)
  unfold stepToward dist3
  dsimp only
  rw [safeLen_of_ne _ h]
  simp only [show ∀ u v : ℝ, u + (v / hypot3 (q.x - p.x) (q.y - p.y) (q.z - p.z)) * L - u
        = v * (L / hypot3 (q.x - p.x) (q.y - p.y) (q.z - p.z))
      from fun u v => by ring]
  rw [hypot3_mul_right, abs_div, abs_of_pos hlen, mul_comm, div_mul_cancel₀]
  exact h

theorem stepToward_dist_target (p q : V3) (L : ℝ)
    (h : hypot3 (q.x - p.x) (q.y - p.y) (q.z - p.z) ≠ 0) :
    dist3 (stepToward p q L) q =
      |L - hypot3 (q.x - p.x) (q.y - p.y) (q.z - p.z)| := by
  have hlen : 0 < hypot3 (q.x - p.x) (q.y - p.y) (q.z - p.z) :=
    lt_of_le_of_ne (hypot3_nonneg _ _ _) (Ne.symm h)
  unfold stepToward dist3
  dsimp only
  rw [safeLen_of_ne _ h]
  simp only [show ∀ u v : ℝ, u + ((v - u) / hypot3 (q.x - p.x) (q.y - p.y) (q.z - p.z)) * L - v
        = (v - u) * (L / hypot3 (q.x - p.x) (q.y - p.y) (q.z - p.z) - 1)
      from fun u v => by field_simp; ring]
  rw [hypot3_mul_right]
  rw [show hypot3 (q.x - p.x) (q.y - p.y) (q.z - p.z) *
        |L / hypot3 (q.x - p.x) (q.y - p.y) (q.z - p.z) - 1| =
        |hypot3 (q.x - p.x) (q.y - p.y) (q.z - p.z) *
          (L / hypot3 (q.x - p.x) (q.y - p.y) (q.z - p.z) - 1)|
      by rw [abs_mul, abs_of_pos hlen]]
  congr 1
  field_simp

theorem fabrikStep_elbow_y (cfg : IkConfig) (t : V3) (s : FabrikState) :
    (fabrikStep cfg t s).elbow.y = ringY cfg := by
  unfold fabrikStep
  dsimp only
  exact projectElbowToRing_y cfg _

theorem fabrikStep_elbow_radius (cfg : IkConfig) (t : V3) (s : FabrikState) :
    hypot2 ((fabrikStep cfg t s).elbow.x - cfg.basePosition.x)
      ((fabrikStep cfg t s).elbow.z - cfg.basePosition.z) = ringR cfg := by
  unfold fabrikStep
  dsimp only
  exact projectElbowToRing_radius cfg _

theorem fabrikLoop_succ_is_step (cfg : IkConfig) (t : V3) :
    ∀ (n : ℕ) (s : FabrikState),
      ∃ s0, fabrikLoop cfg t (n + 1) s = fabrikStep cfg t s0 := by
  intro n
  induction n with
  | zero =>
    intro s
    by_cases h : dist3 (fabrikStep cfg t s).endP t < fabrikTol
    · exact ⟨s, by unfold fabrikLoop; rw [if_pos h]⟩
    · refine ⟨s, ?_⟩
      unfold fabrikLoop
      rw [if_neg h]
      simp only [fabrikLoop]
  | succ n ih =>
    intro s
    by_cases h : dist3 (fabrikStep cfg t s).endP t < fabrikTol
    · exact ⟨s, by unfold fabrikLoop; rw [if_pos h]⟩
    · obtain ⟨s0, hs0⟩ := ih (fabrikStep cfg t s)
      refine ⟨s0, ?_⟩
      unfold fabrikLoop
      rw [if_neg h]
      exact hs0

theorem fabrikFinal_is_step (t : V3) (cur : CurrentAngles) (cfg : IkConfig) :
    ∃ s0, fabrikFinal t cur cfg = fabrikStep cfg t s0 := by
  unfold fabrikFinal fabrikMaxIter
  exact fabrikLoop_succ_is_step cfg t 19 _

/-- C10: on a result whose chain has fewer than 3 bones, angle extraction
returns exactly zero yaw and pitch and no forearm angle, without reading any
bone data. -/
theorem extract_short_chain_zero :
    ∀ bones : List Bone3, bones.length < 3 →
      extractYawPitchDegrees bones = ⟨0, 0, none⟩ := by
  intro bones h
  unfold extractYawPitchDegrees
  rw [if_pos h]

/-- Witness for C10 at a concrete two-bone chain. -/
theorem extract_short_chain_zero_witness :
    ([zeroBone, zeroBone] : List Bone3).length < 3 ∧
      extractYawPitchDegrees [zeroBone, zeroBone] = ⟨0, 0, none⟩ :=
  ⟨by norm_num, extract_short_chain_zero [zeroBone, zeroBone] (by norm_num)⟩

/-- C3: the solve is fully deterministic; equal targets, warm-start angles and
configurations give equal results. -/
theorem computeIk_deterministic :
    ∀ (t1 t2 : V3) (c1 c2 : CurrentAngles) (g1 g2 : IkConfig),
      t1 = t2 → c1 = c2 → g1 = g2 →
      computeIkAnglesFabrik t1 c1 g1 = computeIkAnglesFabrik t2 c2 g2 := by
  intro t1 t2 c1 c2 g1 g2 ht hc hg
  rw [ht, hc, hg]

/-- Witness for C3 at the concrete example inputs. -/
theorem computeIk_deterministic_witness :
    computeIkAnglesFabrik tgtExample curZero cfgExample =
      computeIkAnglesFabrik tgtExample curZero cfgExample :=
  computeIk_deterministic tgtExample tgtExample curZero curZero cfgExample
    cfgExample rfl rfl rfl

/-- C1 (amended): after every iteration of the solve loop the elbow lies
exactly on the fixed ring (height `ringY`, horizontal radius `ringR` from the
base), and the end effector lies at distance `|endEffectorLength|` from the
elbow provided the target differs from the projected elbow; when they
coincide the end effector collapses onto the elbow. -/
theorem fabrikStep_ring_and_length (cfg : IkConfig) (t : V3) (s : FabrikState) :
    (fabrikStep cfg t s).elbow.y = ringY cfg ∧
    hypot2 ((fabrikStep cfg t s).elbow.x - cfg.basePosition.x)
      ((fabrikStep cfg t s).elbow.z - cfg.basePosition.z) = ringR cfg ∧
    (t ≠ (fabrikStep cfg t s).elbow →
      dist3 (fabrikStep cfg t s).endP (fabrikStep cfg t s).elbow =
        |cfg.endEffectorLength|) := by
  refine ⟨fabrikStep_elbow_y cfg t s, fabrikStep_elbow_radius cfg t s, ?_⟩
  intro hne
  have hstep : (fabrikStep cfg t s).endP =
      stepToward (fabrikStep cfg t s).elbow t cfg.endEffectorLength := rfl
  rw [hstep]
  apply stepToward_dist_self
  intro h0
  obtain ⟨hx, hy, hz⟩ := (hypot3_eq_zero_iff _ _ _).mp h0
  apply hne
  ext
  · exact sub_eq_zero.mp hx
  · exact sub_eq_zero.mp hy
  · exact sub_eq_zero.mp hz

/-- Witness for the amended C1: a solve state for the unit-ring configuration
with the target off the ring, where the hypothesis is discharged by computing
the projected elbow. -/
theorem fabrikStep_ring_and_length_witness :
    tgtOffRing ≠
      (fabrikStep cfgRing tgtOffRing (fabrikInit cfgRing tgtOffRing 0)).elbow ∧
    dist3 (fabrikStep cfgRing tgtOffRing (fabrikInit cfgRing tgtOffRing 0)).endP
      (fabrikStep cfgRing tgtOffRing (fabrikInit cfgRing tgtOffRing 0)).elbow =
      |cfgRing.endEffectorLength| := by
  have helb :
      (fabrikStep cfgRing tgtOffRing (fabrikInit cfgRing tgtOffRing 0)).elbow =
        ⟨1, 0, 0⟩ := by
    norm_num [fabrikStep, fabrikInit, stepToward, projectElbowToRing, safeLen,
      hypot3, hypot2, ringR, ringY, cfgRing, tgtOffRing, Real.cos_zero,
      Real.sin_zero, Real.sqrt_one, sqrt_four, Real.sqrt_zero]
  have hne : tgtOffRing ≠
      (fabrikStep cfgRing tgtOffRing (fabrikInit cfgRing tgtOffRing 0)).elbow := by
    rw [helb]
    intro hcontra
    rw [show tgtOffRing = ⟨3, 0, 0⟩ from rfl] at hcontra
    have := congrArg V3.x hcontra
    norm_num at this
  exact ⟨hne, (fabrikStep_ring_and_length cfgRing tgtOffRing _).2.2 hne⟩

/-- Counterexample to C1 as stated: for the unit-ring configuration and a
target lying exactly on the ring, the first iteration leaves the end effector
on the elbow itself, at distance 0 rather than `endEffectorLength = 1`. -/
theorem fabrik_forward_length_cex :
    ¬ (dist3
        (fabrikStep cfgRing tgtOnRing (fabrikInit cfgRing tgtOnRing 0)).endP
        (fabrikStep cfgRing tgtOnRing (fabrikInit cfgRing tgtOnRing 0)).elbow =
        cfgRing.endEffectorLength) := by
  have hstep : fabrikStep cfgRing tgtOnRing (fabrikInit cfgRing tgtOnRing 0) =
      ⟨⟨1, 0, 0⟩, ⟨1, 0, 0⟩⟩ := by
    norm_num [fabrikStep, fabrikInit, stepToward, projectElbowToRing, safeLen,
      hypot3, hypot2, ringR, ringY, cfgRing, tgtOnRing, Real.cos_zero,
      Real.sin_zero, Real.sqrt_one, Real.sqrt_zero]
  rw [hstep]
  norm_num [dist3, hypot3, cfgRing, Real.sqrt_zero]

theorem degScale_bounds (lo hi r : ℝ) (hl : lo * π / 180 ≤ r)
    (hu : r ≤ hi * π / 180) : lo ≤ r * 180 / π ∧ r * 180 / π ≤ hi := by
  have hpi : (0 : ℝ) < π := Real.pi_pos
  constructor
  · rw [le_div_iff hpi]
    linarith
  · rw [div_le_iff hpi]
    linarith

theorem degRoundTrip (d : ℝ) : d * π / 180 * 180 / π = d := by
  field_simp

theorem computeIk_yaw_pitch_bounds (t : V3) (c : CurrentAngles)
    (g : IkConfig) :
    |(computeIkAnglesFabrik t c g).yawDeg| ≤ 180 ∧
    |(computeIkAnglesFabrik t c g).pitchDeg| ≤
      180 + |g.pitchMinDeg| + |g.pitchMaxDeg| := by
  unfold computeIkAnglesFabrik
  dsimp only
  constructor
  · exact abs_toDeg_le _ (abs_atan2_le_pi _ _)
  · have habs : ∀ d : ℝ,
        |d * π / 180 * 180 / π| ≤ 180 + |g.pitchMinDeg| + |g.pitchMaxDeg| →
        True := fun _ _ => trivial
    split_ifs with h1 h2 h3
    · rw [degRoundTrip]
      have := abs_nonneg g.pitchMaxDeg
      linarith [abs_nonneg g.pitchMinDeg, le_abs_self g.pitchMinDeg,
        neg_abs_le g.pitchMinDeg, abs_le_abs (le_refl g.pitchMinDeg)]
    · rw [degRoundTrip]
      linarith [abs_nonneg g.pitchMinDeg, le_abs_self g.pitchMaxDeg,
        neg_abs_le g.pitchMaxDeg, abs_nonneg g.pitchMaxDeg,
        abs_le.mp (le_refl |g.pitchMaxDeg|)]
    · rw [degRoundTrip]
      linarith [abs_nonneg g.pitchMaxDeg, le_abs_self g.pitchMinDeg,
        neg_abs_le g.pitchMinDeg]
    · have hb := abs_toDeg_le _ (abs_atan2_le_pi
        (-(vsub (fabrikFinal t c g).endP (fabrikFinal t c g).elbow).x *
            Real.sin (atan2 (-(vsub (fabrikFinal t c g).elbow g.basePosition).z)
              (vsub (fabrikFinal t c g).elbow g.basePosition).x) +
          (vsub (fabrikFinal t c g).endP (fabrikFinal t c g).elbow).z *
            Real.cos (atan2 (-(vsub (fabrikFinal t c g).elbow g.basePosition).z)
              (vsub (fabrikFinal t c g).elbow g.basePosition).x))
        (vsub (fabrikFinal t c g).endP (fabrikFinal t c g).elbow).y)
      linarith [abs_nonneg g.pitchMinDeg, abs_nonneg g.pitchMaxDeg]

theorem extract_bounds (bones : List Bone3) :
    |(extractYawPitchDegrees bones).yawDeg| ≤ 180 ∧
    |(extractYawPitchDegrees bones).pitchDeg| ≤ 90 ∧
    (extractYawPitchDegrees bones).forearmDeg.elim True (fun f => |f| ≤ 90) := by
  unfold extractYawPitchDegrees
  split
  · refine ⟨by norm_num, by norm_num, ?_⟩
    exact trivial
  · dsimp only
    split
    · refine ⟨?_, ?_, ?_⟩
      · exact abs_toDeg_le _ (abs_angleBetween3D_le_pi _ _ _)
      · exact abs_clamp90_le _
      · exact abs_clamp90_le _
    · refine ⟨?_, ?_, ?_⟩
      · exact abs_toDeg_le _ (abs_angleBetween3D_le_pi _ _ _)
      · exact abs_clamp90_le _
      · exact trivial

theorem extract_clamp_facts (bones : List Bone3) :
    -90 ≤ (extractYawPitchDegrees bones).pitchDeg ∧
    (extractYawPitchDegrees bones).pitchDeg ≤ 90 ∧
    (extractYawPitchDegrees bones).forearmDeg.elim True
      (fun f => -90 ≤ f ∧ f ≤ 90) := by
  unfold extractYawPitchDegrees
  split
  · refine ⟨by norm_num, by norm_num, ?_⟩
    exact trivial
  · dsimp only
    split
    · exact ⟨clamp90_lb _, clamp90_ub _, clamp90_lb _, clamp90_ub _⟩
    · exact ⟨clamp90_lb _, clamp90_ub _, trivial⟩

/-- C2: no degenerate input produces an undefined or unbounded result: every
normalisation divisor guarded by the code is strictly positive, and for every
target (including the base anchor itself), warm start and configuration the
solver returns yaw within 180 degrees in magnitude and a pitch bounded by the
configured limits plus 180; likewise angle extraction returns bounded values
for every chain, including bones with coincident start and end points. -/
theorem computeIk_extract_outputs_finite :
    ∀ (t : V3) (c : CurrentAngles) (g : IkConfig) (bones : List Bone3),
      |(computeIkAnglesFabrik t c g).yawDeg| ≤ 180 ∧
      |(computeIkAnglesFabrik t c g).pitchDeg| ≤
        180 + |g.pitchMinDeg| + |g.pitchMaxDeg| ∧
      (∀ a b d : ℝ, 0 < safeLen (hypot3 a b d)) ∧
      |(extractYawPitchDegrees bones).yawDeg| ≤ 180 ∧
      |(extractYawPitchDegrees bones).pitchDeg| ≤ 90 ∧
      (extractYawPitchDegrees bones).forearmDeg.elim True (fun f => |f| ≤ 90) := by
  intro t c g bones
  obtain ⟨h1, h2⟩ := computeIk_yaw_pitch_bounds t c g
  obtain ⟨h3, h4, h5⟩ := extract_bounds bones
  exact ⟨h1, h2, fun a b d => safeLen_hypot3_pos a b d, h3, h4, h5⟩

theorem computeIk_pitch_in_limits (t : V3) (c : CurrentAngles) (g : IkConfig)
    (h : g.pitchMinDeg ≤ g.pitchMaxDeg) :
    g.pitchMinDeg ≤ (computeIkAnglesFabrik t c g).pitchDeg ∧
    (computeIkAnglesFabrik t c g).pitchDeg ≤ g.pitchMaxDeg := by
  have hpi : (0 : ℝ) < π := Real.pi_pos
  have hmono : g.pitchMinDeg * π / 180 ≤ g.pitchMaxDeg * π / 180 := by
    rw [div_le_div_iff (by norm_num) (by norm_num)]
    nlinarith
  unfold computeIkAnglesFabrik
  dsimp only
  split_ifs with h1 h2 h3
  · exact degScale_bounds _ _ _ le_rfl hmono
  · exact degScale_bounds _ _ _ hmono le_rfl
  · exact degScale_bounds _ _ _ le_rfl hmono
  · push_neg at h1 h3
    exact degScale_bounds _ _ _ h3 h1

/-- C6 (amended): every clamped angle lies within its clamp. The pitch and
forearm angles reported by `extractYawPitchDegrees` always lie in [-90, 90];
the pitch returned by `computeIkAnglesFabrik` lies in
[pitchMinDeg, pitchMaxDeg] whenever those limits are correctly ordered. -/
theorem pitch_clamp_bounds :
    (∀ bones : List Bone3,
      -90 ≤ (extractYawPitchDegrees bones).pitchDeg ∧
      (extractYawPitchDegrees bones).pitchDeg ≤ 90 ∧
      (extractYawPitchDegrees bones).forearmDeg.elim True
        (fun f => -90 ≤ f ∧ f ≤ 90)) ∧
    (∀ (t : V3) (c : CurrentAngles) (g : IkConfig),
      g.pitchMinDeg ≤ g.pitchMaxDeg →
      g.pitchMinDeg ≤ (computeIkAnglesFabrik t c g).pitchDeg ∧
      (computeIkAnglesFabrik t c g).pitchDeg ≤ g.pitchMaxDeg) :=
  ⟨extract_clamp_facts, computeIk_pitch_in_limits⟩

/-- Witness for the amended C6 at a concrete well-ordered configuration. -/
theorem pitch_clamp_bounds_witness :
    cfgRing.pitchMinDeg ≤ cfgRing.pitchMaxDeg ∧
    (cfgRing.pitchMinDeg ≤
        (computeIkAnglesFabrik tgtOffRing curZero cfgRing).pitchDeg ∧
      (computeIkAnglesFabrik tgtOffRing curZero cfgRing).pitchDeg ≤
        cfgRing.pitchMaxDeg) :=
  ⟨by norm_num [cfgRing],
    pitch_clamp_bounds.2 tgtOffRing curZero cfgRing (by norm_num [cfgRing])⟩

/-- Counterexample to C6 as stated: with inverted limits (min 90, max -90)
the returned pitch cannot lie in the empty interval [90, -90], so the clause
that the pitch always lies in [pitchMinDeg, pitchMaxDeg] fails. -/
theorem pitch_clamp_interval_cex :
    ¬ (cfgInverted.pitchMinDeg ≤
        (computeIkAnglesFabrik tgtOnRing curZero cfgInverted).pitchDeg ∧
      (computeIkAnglesFabrik tgtOnRing curZero cfgInverted).pitchDeg ≤
        cfgInverted.pitchMaxDeg) := by
  rintro ⟨hl, hu⟩
  rw [show cfgInverted.pitchMinDeg = 90 from rfl] at hl
  rw [show cfgInverted.pitchMaxDeg = -90 from rfl] at hu
  linarith

theorem fabrik_example_residual_lb_aux (s0 : FabrikState) :
    4 ≤ dist3 (fabrikStep cfgExample tgtExample s0).endP tgtExample := by
  set e : V3 := (fabrikStep cfgExample tgtExample s0).elbow with he
  have hy : e.y = 2 := by
    rw [he, fabrikStep_elbow_y]
    norm_num [ringY, cfgExample]
  have hr : ringR cfgExample = 4 := by
    show Real.sqrt ((4 : ℝ) ^ 2 + (0 : ℝ) ^ 2) = 4
    rw [show ((4 : ℝ) ^ 2 + (0 : ℝ) ^ 2) = 4 ^ 2 by norm_num,
      Real.sqrt_sq (by norm_num : (0 : ℝ) ≤ 4)]
  have hrad : Real.sqrt (e.x ^ 2 + e.z ^ 2) = 4 := by
    have h := fabrikStep_elbow_radius cfgExample tgtExample s0
    rw [← he, hr] at h
    rw [show cfgExample.basePosition.x = 0 from rfl,
      show cfgExample.basePosition.z = 0 from rfl] at h
    unfold hypot2 at h
    simpa using h
  have hsq : e.x ^ 2 + e.z ^ 2 = 16 := by
    have h0 : (0 : ℝ) ≤ e.x ^ 2 + e.z ^ 2 := by positivity
    calc e.x ^ 2 + e.z ^ 2 = Real.sqrt (e.x ^ 2 + e.z ^ 2) ^ 2 :=
          (Real.sq_sqrt h0).symm
      _ = 16 := by rw [hrad]; norm_num
  have hdne : hypot3 (tgtExample.x - e.x) (tgtExample.y - e.y)
      (tgtExample.z - e.z) ≠ 0 := by
    intro h0
    obtain ⟨_, hy0, _⟩ := (hypot3_eq_zero_iff _ _ _).mp h0
    rw [show tgtExample.y = 3 from rfl, hy] at hy0
    norm_num at hy0
  have hend : (fabrikStep cfgExample tgtExample s0).endP =
      stepToward e tgtExample 10 := rfl
  rw [hend, stepToward_dist_target e tgtExample 10 hdne]
  have hlt : hypot3 (tgtExample.x - e.x) (tgtExample.y - e.y)
      (tgtExample.z - e.z) < 6 := by
    unfold hypot3
    rw [Real.sqrt_lt' (by norm_num : (0 : ℝ) < 6)]
    rw [show tgtExample.x = 1 from rfl, show tgtExample.y = 3 from rfl,
      show tgtExample.z = -1 from rfl, hy]
    nlinarith [hsq, sq_nonneg (e.x + 4), sq_nonneg (e.z - 4)]
  have hnn : 0 ≤ hypot3 (tgtExample.x - e.x) (tgtExample.y - e.y)
      (tgtExample.z - e.z) := hypot3_nonneg _ _ _
  rw [abs_of_pos (by linarith)]
  linarith

/-- Counterexample to C4 as stated: for the documented geometry (base
`[0,-1,0]`, ring radius 4 at height `base.y + 3`, end-effector length 10) and
the spec's target `(1, 3, -1)`, the solve never reaches a residual below 0.01:
the final end effector stays at distance at least 4 from the target. -/
theorem fabrik_convergence_example_cex :
    ¬ (dist3 (fabrikFinal tgtExample curZero cfgExample).endP tgtExample <
        1 / 100) := by
  obtain ⟨s0, hs0⟩ := fabrikFinal_is_step tgtExample curZero cfgExample
  rw [hs0]
  have h := fabrik_example_residual_lb_aux s0
  linarith

/-- C4 (amended): for the documented geometry and the spec's target
`(1, 3, -1)` the target is geometrically unreachable: every point at the
end-effector distance from the elbow ring is at least 4 away from it, so the
solve exhausts its 20-iteration cap and returns a best-effort pose whose
residual is at least 4 (never below the 0.01 threshold). -/
theorem fabrik_example_residual_lower_bound :
    4 ≤ dist3 (fabrikFinal tgtExample curZero cfgExample).endP tgtExample := by
  obtain ⟨s0, hs0⟩ := fabrikFinal_is_step tgtExample curZero cfgExample
  rw [hs0]
  exact fabrik_example_residual_lb_aux s0

theorem zeroLen_step_const (s : FabrikState) :
    fabrikStep cfgZeroLen tgtTwo s = ⟨⟨1, 0, 0⟩, ⟨1, 0, 0⟩⟩ := by
  norm_num [fabrikStep, stepToward, projectElbowToRing, safeLen, hypot3,
    hypot2, ringR, ringY, cfgZeroLen, tgtTwo, Real.sqrt_one, Real.sqrt_zero,
    sqrt_four]

theorem zeroLen_err_not_lt :
    ¬ (dist3 (⟨⟨1, 0, 0⟩, ⟨1, 0, 0⟩⟩ : FabrikState).endP tgtTwo < fabrikTol) := by
  norm_num [dist3, hypot3, tgtTwo, fabrikTol, Real.sqrt_one]

theorem zeroLen_loop : ∀ (n : ℕ) (s : FabrikState),
    fabrikLoop cfgZeroLen tgtTwo (n + 1) s = ⟨⟨1, 0, 0⟩, ⟨1, 0, 0⟩⟩ := by
  intro n
  induction n with
  | zero =>
    intro s
    unfold fabrikLoop
    rw [zeroLen_step_const s, if_neg zeroLen_err_not_lt]
    simp only [fabrikLoop]
  | succ n ih =>
    intro s
    unfold fabrikLoop
    rw [zeroLen_step_const s, if_neg zeroLen_err_not_lt]
    exact ih _

theorem zeroLen_final :
    fabrikFinal tgtTwo curZero cfgZeroLen = ⟨⟨1, 0, 0⟩, ⟨1, 0, 0⟩⟩ := by
  unfold fabrikFinal fabrikMaxIter
  rw [show (20 : ℕ) = 19 + 1 from by norm_num]
  exact zeroLen_loop 19 _

theorem zeroLen_result :
    computeIkAnglesFabrik tgtTwo curZero cfgZeroLen = ⟨0, 0⟩ := by
  have hpi : (0 : ℝ) < π := Real.pi_pos
  have h1 : atan2 (0 : ℝ) 1 = 0 := by
    unfold atan2
    rw [if_pos (by norm_num : (0 : ℝ) < 1)]
    norm_num [Real.arctan_zero]
  have h2 : atan2 (0 : ℝ) 0 = 0 := by
    unfold atan2
    norm_num
  unfold computeIkAnglesFabrik
  rw [zeroLen_final]
  dsimp only
  norm_num [vsub, cfgZeroLen, h1, h2]
  left
  have hA : ¬((90 : ℝ) * π / 180 < 0) := not_lt.mpr (by positivity)
  have hB0 : -(90 * π) / 180 ≤ (0 : ℝ) := by
    rw [neg_div]
    exact neg_nonpos.mpr (by positivity)
  rw [if_neg hA, if_neg (not_lt.mpr hB0), if_neg hA]

/-- Counterexample to C5 as stated: the configuration with end-effector length
0 (a non-positive bone length) is not rejected; `computeIkAnglesFabrik`
produces the definite solve result yaw 0, pitch 0 for it, and no
`InvalidChainError` exists anywhere in the repository. -/
theorem no_invalid_chain_rejection_cex :
    cfgZeroLen.endEffectorLength ≤ 0 ∧
      computeIkAnglesFabrik tgtTwo curZero cfgZeroLen = ⟨0, 0⟩ :=
  ⟨by norm_num [cfgZeroLen], zeroLen_result⟩

/-- C5 (amended): no validation happens before solving: even for a
configuration with a non-positive end-effector length the solver still
produces a (bounded) solve result instead of failing. -/
theorem degenerate_length_still_solves :
    ∀ (t : V3) (c : CurrentAngles) (g : IkConfig), g.endEffectorLength ≤ 0 →
      |(computeIkAnglesFabrik t c g).yawDeg| ≤ 180 ∧
      |(computeIkAnglesFabrik t c g).pitchDeg| ≤
        180 + |g.pitchMinDeg| + |g.pitchMaxDeg| := by
  intro t c g _
  exact computeIk_yaw_pitch_bounds t c g

/-- Witness for the amended C5 at the zero-length configuration. -/
theorem degenerate_length_still_solves_witness :
    cfgZeroLen.endEffectorLength ≤ 0 ∧
      (|(computeIkAnglesFabrik tgtTwo curZero cfgZeroLen).yawDeg| ≤ 180 ∧
        |(computeIkAnglesFabrik tgtTwo curZero cfgZeroLen).pitchDeg| ≤
          180 + |cfgZeroLen.pitchMinDeg| + |cfgZeroLen.pitchMaxDeg|) :=
  ⟨by norm_num [cfgZeroLen],
    degenerate_length_still_solves tgtTwo curZero cfgZeroLen
      (by norm_num [cfgZeroLen])⟩
